import Mathlib

/-! Verification development for the parallel-STL benchmark (`src/main.cpp`).

The program builds two `std::vector<double>` inputs, runs thirteen standard
algorithms under a chosen execution policy and prints one result line per
algorithm.  This file embeds the program in Lean:

* `double` values are represented by the rational number they denote; every
  arithmetic operation rounds its exact result to binary64
  (round-to-nearest, ties-to-even), see `roundF64`;
* `std::vector<double>` is `List ℚ`, iterators are indices (`end()` is the length),
  dereferencing an index outside the vector is undefined behaviour (`none`);
* the standard algorithms called by `RunTests` are modelled from the C++ standard;
  the grouping freedom of `std::reduce` and `std::inclusive_scan` is a parameter
  (`ParImpl`) that may depend on the execution policy;
* `std::cout` is a list of output records, `steady_clock::now()` reads a clock
  function indexed by the number of readings made so far.
-/

namespace PSTL

/-! ## binary64 arithmetic -/

/-- Nearest integer to `x`, ties to the even integer. -/
def roundEven (x : ℚ) : ℤ :=
  let f := ⌊x⌋
  let r := x - f
  if r < 1 / 2 then f
  else if 1 / 2 < r then f + 1
  else if f % 2 = 0 then f else f + 1

/-- Exponent of the unit in the last place of the binary64 binade of `q`:
53 significant bits, minimal normal exponent `-1022` (below it, subnormals). -/
def ulpExp (q : ℚ) : ℤ := max (Int.log 2 |q|) (-1022) - 52

/-- Rounding of an exact result to binary64.  Overflow to infinity is not
represented: no value of the program reaches `2 ^ 1024`. -/
def roundF64 (q : ℚ) : ℚ := roundEven (q / 2 ^ ulpExp q) * 2 ^ ulpExp q

/-- Addition of two doubles. -/
def fadd (a b : ℚ) : ℚ := roundF64 (a + b)

/-- The double denoted by a decimal literal of the source. -/
def lit (q : ℚ) : ℚ := roundF64 q

/-- Largest value of the type `int` (the type of `size` in `RunTests`). -/
def INT_MAX : ℕ := 2147483647

/-! ## Execution policies and the freedom they give to the library -/

/-- The three execution policies `std::execution::seq`, `par`, `par_unseq`. -/
inductive Policy
  | seq
  | par
  | par_unseq
  deriving DecidableEq, Repr

/-- A grouping of operands: `leaf i` is operand number `i`, `node l r` adds the
results of two sub-groupings. -/
inductive SumTree
  | leaf (i : ℕ)
  | node (l r : SumTree)
  deriving DecidableEq, Repr

/-- Operand numbers of a grouping, left to right. -/
def SumTree.leaves : SumTree → List ℕ
  | .leaf i => [i]
  | .node l r => l.leaves ++ r.leaves

/-- Value of a grouping over the operands `ops`, every addition rounded. -/
def SumTree.eval (ops : List ℚ) : SumTree → ℚ
  | .leaf i => ops.getD i 0
  | .node l r => fadd (l.eval ops) (r.eval ops)

/-- The choices the standard leaves to the library: for `std::reduce` over `n`
elements (operand `0` is `init`, operand `i + 1` is element `i`) the grouping
`reduceTree policy n`; for output `k` of `std::inclusive_scan` over `n` elements the
grouping `scanTree policy n k`. -/
structure ParImpl where
  reduceTree : Policy → ℕ → SumTree
  scanTree : Policy → ℕ → ℕ → SumTree

/-- What the standard requires of these choices: `std::reduce` computes a
GENERALIZED_SUM (any grouping of any permutation of `init` and the elements),
output `k` of `std::inclusive_scan` a GENERALIZED_NONCOMMUTATIVE_SUM of elements
`0..k` (any grouping, order kept). -/
def ParImpl.Valid (impl : ParImpl) : Prop :=
  (∀ p n, (impl.reduceTree p n).leaves.Perm (List.range (n + 1))) ∧
  (∀ p n k, k < n → (impl.scanTree p n k).leaves = List.range (k + 1))

/-- Left-nested grouping `((0 + 1) + 2) + ... + n`. -/
def leftTree : ℕ → SumTree
  | 0 => .leaf 0
  | n + 1 => .node (leftTree n) (.leaf (n + 1))

/-- Right-nested grouping `lo + ((lo + 1) + (... + (lo + n)))`. -/
def rightTree (lo : ℕ) : ℕ → SumTree
  | 0 => .leaf lo
  | n + 1 => .node (.leaf lo) (rightTree (lo + 1) n)

/-- A library that folds from the left under `seq` and from the right under
`par` and `par_unseq`. -/
def demoImpl : ParImpl where
  reduceTree p n := match p with
    | .seq => leftTree n
    | _ => rightTree 0 n
  scanTree p _ k := match p with
    | .seq => leftTree k
    | _ => rightTree 0 k

/-! ## The standard algorithms called by `RunTests` -/

/-- The call `std::iota(first, last, value)`: each element receives `value`, then `++value`. -/
def iota : List ℚ → ℚ → List ℚ
  | [], _ => []
  | _ :: xs, value => value :: iota xs (fadd value 1)

/-- The call `std::accumulate(first, last, init)`: left fold of `+`. -/
def accumulate (xs : List ℚ) (init : ℚ) : ℚ := xs.foldl fadd init

/-- The call `std::reduce(policy, first, last, init)`. -/
def reduce (impl : ParImpl) (policy : Policy) (xs : List ℚ) (init : ℚ) : ℚ :=
  (impl.reduceTree policy xs.length).eval (init :: xs)

/-- The call `std::find(policy, first, last, value)`: index of the first element equal
to `value`, the length when there is none. -/
def find (_policy : Policy) : List ℚ → ℚ → ℕ
  | [], _ => 0
  | x :: xs, value => if x = value then 0 else find _policy xs value + 1

/-- Loop of `std::copy_if`: `pos` is the output position; writing at or past the end
of the output buffer is undefined. -/
def copy_if_loop (pred : ℚ → Bool) : List ℚ → List ℚ → ℕ → Option (List ℚ × ℕ)
  | [], out, pos => some (out, pos)
  | x :: xs, out, pos =>
    if pred x then
      if pos < out.length then copy_if_loop pred xs (out.set pos x) (pos + 1) else none
    else copy_if_loop pred xs out pos

/-- The call `std::copy_if(policy, first, last, d_first, pred)` with `d_first` the start of
`out`: the buffer after the call and the returned output position. -/
def copy_if (_policy : Policy) (xs out : List ℚ) (pred : ℚ → Bool) : Option (List ℚ × ℕ) :=
  copy_if_loop pred xs out 0

/-- The call `std::inclusive_scan(policy, first, last, d_first)` with `d_first` the start of
`out`: the buffer after the call. -/
def inclusive_scan (impl : ParImpl) (policy : Policy) (xs out : List ℚ) : Option (List ℚ) :=
  if xs.length ≤ out.length then
    some ((List.range xs.length).map (fun k => (impl.scanTree policy xs.length k).eval xs)
      ++ out.drop xs.length)
  else none

/-- Loop of `std::min_element`: `i` is the index of the head of the remaining
range, `best` the index of the smallest element so far and `bv` its value. -/
def min_element_loop : List ℚ → ℕ → ℕ → ℚ → ℕ
  | [], _, best, _ => best
  | x :: xs, i, best, bv =>
    if x < bv then min_element_loop xs (i + 1) i x else min_element_loop xs (i + 1) best bv

/-- The call `std::min_element(policy, first, last)`: index of the first smallest element
(`0`, which is `end()`, on an empty range). -/
def min_element (_policy : Policy) : List ℚ → ℕ
  | [] => 0
  | x :: xs => min_element_loop xs 1 0 x

/-- Loop of `std::max_element`. -/
def max_element_loop : List ℚ → ℕ → ℕ → ℚ → ℕ
  | [], _, best, _ => best
  | x :: xs, i, best, bv =>
    if bv < x then max_element_loop xs (i + 1) i x else max_element_loop xs (i + 1) best bv

/-- The call `std::max_element(policy, first, last)`: index of the first largest element. -/
def max_element (_policy : Policy) : List ℚ → ℕ
  | [] => 0
  | x :: xs => max_element_loop xs 1 0 x

/-- Loop for the second component of `std::minmax_element`: the last largest element. -/
def last_max_loop : List ℚ → ℕ → ℕ → ℚ → ℕ
  | [], _, best, _ => best
  | x :: xs, i, best, bv =>
    if x < bv then last_max_loop xs (i + 1) best bv else last_max_loop xs (i + 1) i x

/-- The call `std::minmax_element(policy, first, last)`: indices of the first smallest and
of the last largest element. -/
def minmax_element (_policy : Policy) : List ℚ → ℕ × ℕ
  | [] => (0, 0)
  | x :: xs => (min_element_loop xs 1 0 x, last_max_loop xs 1 0 x)

/-- The call `std::is_partitioned(policy, first, last, pred)`: no element satisfying `pred`
follows one that does not. -/
def is_partitioned (_policy : Policy) (xs : List ℚ) (pred : ℚ → Bool) : Bool :=
  (xs.dropWhile pred).all (fun x => !pred x)

/-- The call `std::lexicographical_compare(policy, first1, last1, first2, last2)`. -/
def lexicographical_compare (_policy : Policy) : List ℚ → List ℚ → Bool
  | _, [] => false
  | [], _ :: _ => true
  | x :: xs, y :: ys =>
    if x < y then true else if y < x then false else lexicographical_compare _policy xs ys

/-- Loop of `std::lower_bound`; the first argument bounds the number of iterations
(`len` halves at least once per iteration, so `len` iterations are enough). -/
def lower_bound_loop (xs : List ℚ) (val : ℚ) : ℕ → ℕ → ℕ → ℕ
  | 0, first, _ => first
  | fuel + 1, first, len =>
    if len = 0 then first
    else
      let half := len / 2
      let middle := first + half
      if xs.getD middle 0 < val then lower_bound_loop xs val fuel (middle + 1) (len - half - 1)
      else lower_bound_loop xs val fuel first half

/-- The call `std::lower_bound(first, last, val)`. -/
def lower_bound (xs : List ℚ) (val : ℚ) : ℕ := lower_bound_loop xs val xs.length 0 xs.length

/-- Loop of `std::upper_bound`. -/
def upper_bound_loop (xs : List ℚ) (val : ℚ) : ℕ → ℕ → ℕ → ℕ
  | 0, first, _ => first
  | fuel + 1, first, len =>
    if len = 0 then first
    else
      let half := len / 2
      let middle := first + half
      if val < xs.getD middle 0 then upper_bound_loop xs val fuel first half
      else upper_bound_loop xs val fuel (middle + 1) (len - half - 1)

/-- The call `std::upper_bound(first, last, val)`. -/
def upper_bound (xs : List ℚ) (val : ℚ) : ℕ := upper_bound_loop xs val xs.length 0 xs.length

/-- The call `std::binary_search(first, last, val)`. -/
def binary_search (xs : List ℚ) (val : ℚ) : Bool :=
  let i := lower_bound xs val
  decide (i ≠ xs.length) && !decide (val < xs.getD i 0)

/-- Dereference of the iterator at index `i`; undefined at `end()`. -/
def deref (xs : List ℚ) (i : ℕ) : Option ℚ := xs[i]?

/-! ## Console and clock -/

/-- Result of a measured lambda: a `double`, a `std::ptrdiff_t` or a `bool`. -/
inductive Val
  | f64 (x : ℚ)
  | diff (n : ℤ)
  | bool (b : Bool)
  deriving DecidableEq

/-- What is written to `std::cout`: a string, or the result line
`"<title>: <elapsed> ms, res <ret>\n"` of `RunAndMeasure`. -/
inductive Out
  | text (s : String)
  | line (title : String) (elapsed : ℤ) (ret : Val)
  deriving DecidableEq

/-- State of the process: console output, number of clock readings made, and
the log of the policies `RunTests` was entered with. -/
structure World where
  out : List Out
  ticks : ℕ
  calls : List Policy
  deriving DecidableEq

/-- Function `RunAndMeasure(title, func)`. -/
def RunAndMeasure (clock : ℕ → ℤ) (title : String) (func : Unit → Option Val) (w : World) :
    Option World :=
  let start := clock w.ticks
  match func () with
  | none => none
  | some ret =>
    let stop := clock (w.ticks + 1)
    some { out := w.out ++ [Out.line title (stop - start) ret], ticks := w.ticks + 2,
           calls := w.calls }

/-! ## The lambdas of `RunTests` -/

/-- Lambda measured as `"std::accumulate"`. -/
def lam_accumulate (v : List ℚ) : Option Val :=
  some (.f64 (accumulate v (lit 0.0)))

/-- Lambda measured as `"std::reduce"`. -/
def lam_reduce (impl : ParImpl) (policy : Policy) (v : List ℚ) : Option Val :=
  some (.f64 (reduce impl policy v (lit 0.0)))

/-- Lambda measured as `"std::find"`. -/
def lam_find (policy : Policy) (v : List ℚ) : Option Val :=
  let res := find policy v (lit 0.6)
  some (.f64 (if res = v.length then lit 0.0 else lit 1.0))

/-- Lambda measured as `"std::copy_if"`. -/
def lam_copy_if (policy : Policy) (v result : List ℚ) : Option Val :=
  match copy_if policy v result (fun value => decide (lit 0.4 < value)) with
  | none => none
  | some (_, new_end) => some (.diff ((new_end : ℤ) - 0))

/-- Lambda measured as `"std::inclusive_scan"`. -/
def lam_inclusive_scan (impl : ParImpl) (policy : Policy) (v : List ℚ) : Option Val :=
  let scan_result := List.replicate v.length (0 : ℚ)
  match inclusive_scan impl policy v scan_result with
  | none => none
  | some scan_result => (scan_result.getLast?).map Val.f64

/-- Lambda measured as `"std::min_element"`. -/
def lam_min_element (policy : Policy) (v1 : List ℚ) : Option Val :=
  (deref v1 (min_element policy v1)).map Val.f64

/-- Lambda measured as `"std::max_element"`. -/
def lam_max_element (policy : Policy) (v1 : List ℚ) : Option Val :=
  (deref v1 (max_element policy v1)).map Val.f64

/-- Lambda measured as `"std::minmax_element"`. -/
def lam_minmax_element (policy : Policy) (v1 : List ℚ) : Option Val :=
  let result := minmax_element policy v1
  match deref v1 result.1, deref v1 result.2 with
  | some a, some b => some (.f64 (fadd a b))
  | _, _ => none

/-- Lambda measured as `"std::is_partitioned"`. -/
def lam_is_partitioned (policy : Policy) (v : List ℚ) : Option Val :=
  some (.bool (is_partitioned policy v (fun n => decide (n < lit 1.0))))

/-- Lambda measured as `"std::lexicographical_compare"`. -/
def lam_lexicographical_compare (policy : Policy) (v : List ℚ) : Option Val :=
  let v2 := List.replicate 1024000000 (lit 0.5)
  some (.bool (lexicographical_compare policy v v2))

/-- Lambda measured as `"std::binary_search"`. -/
def lam_binary_search (v : List ℚ) : Option Val :=
  some (.bool (binary_search v (lit 0.5)))

/-- Lambda measured as `"std::lower_bound"`. -/
def lam_lower_bound (v1 : List ℚ) : Option Val :=
  (deref v1 (lower_bound v1 (lit 0.5))).map Val.f64

/-- Lambda measured as `"std::upper_bound"`. -/
def lam_upper_bound (v1 : List ℚ) : Option Val :=
  (deref v1 (upper_bound v1 (lit 0.5))).map Val.f64

/-! ## `RunTests` and `main` -/

/-- The vector `v`: `size` copies of `0.5`. -/
def vecV (size : ℕ) : List ℚ := List.replicate size (lit 0.5)

/-- The vector `v1`: `size` zeros filled by `std::iota` from `1.0`. -/
def vecV1 (size : ℕ) : List ℚ := iota (List.replicate size 0) (lit 1.0)

/-- Body of `RunTests(policy)` for a given value of the local `size`. -/
def RunTestsN (size : ℕ) (impl : ParImpl) (clock : ℕ → ℤ) (policy : Policy) (w : World) :
    Option World := do
  let v := vecV size
  let result := List.replicate v.length (0 : ℚ)
  let v1 := vecV1 size
  let w : World := { out := w.out, ticks := w.ticks, calls := w.calls ++ [policy] }
  let w ← RunAndMeasure clock "std::accumulate" (fun _ => lam_accumulate v) w
  let w ← RunAndMeasure clock "std::reduce" (fun _ => lam_reduce impl policy v) w
  let w ← RunAndMeasure clock "std::find" (fun _ => lam_find policy v) w
  let w ← RunAndMeasure clock "std::copy_if" (fun _ => lam_copy_if policy v result) w
  let w ← RunAndMeasure clock "std::inclusive_scan" (fun _ => lam_inclusive_scan impl policy v) w
  let w ← RunAndMeasure clock "std::min_element" (fun _ => lam_min_element policy v1) w
  let w ← RunAndMeasure clock "std::max_element" (fun _ => lam_max_element policy v1) w
  let w ← RunAndMeasure clock "std::minmax_element" (fun _ => lam_minmax_element policy v1) w
  let w ← RunAndMeasure clock "std::is_partitioned" (fun _ => lam_is_partitioned policy v) w
  let w ← RunAndMeasure clock "std::lexicographical_compare"
    (fun _ => lam_lexicographical_compare policy v) w
  let w ← RunAndMeasure clock "std::binary_search" (fun _ => lam_binary_search v) w
  let w ← RunAndMeasure clock "std::lower_bound" (fun _ => lam_lower_bound v1) w
  RunAndMeasure clock "std::upper_bound" (fun _ => lam_upper_bound v1) w

/-- Function `RunTests(policy)`: `int size = 1024000000`. -/
def RunTests (impl : ParImpl) (clock : ℕ → ℤ) (policy : Policy) (w : World) : Option World :=
  RunTestsN 1024000000 impl clock policy w

/-- The prompt written by `main`. -/
def prompt : List Out :=
  [.text "Choose execution policy: \n", .text "1. Sequential\n", .text "2. Parallel\n",
   .text "3. Parallel Unsequenced\n", .text "Enter choice (1/2/3): "]

/-- Whitespace skipped by formatted extraction. -/
def isspace (c : Char) : Bool :=
  c = ' ' || c = '\t' || c = '\n' || c = '\x0b' || c = '\x0c' || c = '\r'

/-- The extraction `std::cin >> policy_choice`: the first character of `stdin` that is not
whitespace; when there is none the variable keeps its previous value `old`. -/
def extract (stdin : List Char) (old : Char) : Char :=
  match stdin.dropWhile isspace with
  | [] => old
  | c :: _ => c

/-- The confirmation line of a policy. -/
def confirmation : Policy → String
  | .seq => "Running with std::execution::seq\n"
  | .par => "Running with std::execution::par\n"
  | .par_unseq => "Running with std::execution::par_unseq\n"

/-- Function `main`: `stdin` is the console input, `indet` the indeterminate initial
value of `policy_choice`; the result is the final state and the exit code. -/
def main (impl : ParImpl) (clock : ℕ → ℤ) (stdin : List Char) (indet : Char) :
    Option (World × ℤ) :=
  let w : World := { out := prompt, ticks := 0, calls := [] }
  let policy_choice := extract stdin indet
  if policy_choice = '1' then
    let w : World := { out := w.out ++ [.text "Running with std::execution::seq\n"],
                       ticks := w.ticks, calls := w.calls }
    (RunTests impl clock .seq w).map (fun w => (w, 0))
  else if policy_choice = '2' then
    let w : World := { out := w.out ++ [.text "Running with std::execution::par\n"],
                       ticks := w.ticks, calls := w.calls }
    (RunTests impl clock .par w).map (fun w => (w, 0))
  else if policy_choice = '3' then
    let w : World := { out := w.out ++ [.text "Running with std::execution::par_unseq\n"],
                       ticks := w.ticks, calls := w.calls }
    (RunTests impl clock .par_unseq w).map (fun w => (w, 0))
  else
    let w : World := { out := w.out ++ [.text "Exiting program.\n"],
                       ticks := w.ticks, calls := w.calls }
    some (w, 0)

/-! ## Observations on the console output -/

/-- Titles and results of the result lines of an output, in order. -/
def resultLines : List Out → List (String × Val)
  | [] => []
  | .line title _ ret :: rest => (title, ret) :: resultLines rest
  | .text _ :: rest => resultLines rest

/-- The result reported by the first result line titled `title`. -/
def reported (out : List Out) (title : String) : Option Val :=
  ((resultLines out).find? (fun l => l.1 = title)).map (fun l => l.2)

/-- The thirteen titles, in the order of the calls in `RunTests`. -/
def titles : List String :=
  ["std::accumulate", "std::reduce", "std::find", "std::copy_if", "std::inclusive_scan",
   "std::min_element", "std::max_element", "std::minmax_element", "std::is_partitioned",
   "std::lexicographical_compare", "std::binary_search", "std::lower_bound",
   "std::upper_bound"]

/-- The policy selected by a character of the console input. -/
def policyOf (c : Char) : Option Policy :=
  if c = '1' then some .seq
  else if c = '2' then some .par
  else if c = '3' then some .par_unseq
  else none

/-! ## Closed forms used in the statements -/

/-- The list `a, a + 1, ..., a + n - 1` as doubles. -/
def natsFrom (a n : ℕ) : List ℚ := List.map (fun i : ℕ => (i : ℚ)) (List.range' a n)

/-- The thirteen result lines of a run entered at clock reading `t`, given the values `r`
and `s` reported for `std::reduce` and `std::inclusive_scan`. -/
def runLines (size : ℕ) (clock : ℕ → ℤ) (t : ℕ) (r s : ℚ) : List Out :=
  [.line "std::accumulate" (clock (t + 1) - clock t) (.f64 ((size : ℚ) / 2)),
   .line "std::reduce" (clock (t + 3) - clock (t + 2)) (.f64 r),
   .line "std::find" (clock (t + 5) - clock (t + 4)) (.f64 0),
   .line "std::copy_if" (clock (t + 7) - clock (t + 6)) (.diff size),
   .line "std::inclusive_scan" (clock (t + 9) - clock (t + 8)) (.f64 s),
   .line "std::min_element" (clock (t + 11) - clock (t + 10)) (.f64 1),
   .line "std::max_element" (clock (t + 13) - clock (t + 12)) (.f64 size),
   .line "std::minmax_element" (clock (t + 15) - clock (t + 14)) (.f64 (1 + (size : ℚ))),
   .line "std::is_partitioned" (clock (t + 17) - clock (t + 16)) (.bool true),
   .line "std::lexicographical_compare" (clock (t + 19) - clock (t + 18))
     (.bool (decide (size < 1024000000))),
   .line "std::binary_search" (clock (t + 21) - clock (t + 20)) (.bool true),
   .line "std::lower_bound" (clock (t + 23) - clock (t + 22)) (.f64 1),
   .line "std::upper_bound" (clock (t + 25) - clock (t + 24)) (.f64 1)]

/-! ## Lemmas on binary64 rounding -/

theorem roundEven_intCast (z : ℤ) : roundEven (z : ℚ) = z := by
  simp [roundEven]

theorem ulpExp_le_of_abs_lt (q : ℚ) (e : ℤ) (he : -1074 ≤ e) (hq : q ≠ 0)
    (h : |q| < 2 ^ (e + 53)) : ulpExp q ≤ e := by
  unfold ulpExp
  have hL : Int.log 2 |q| < e + 53 :=
    (Int.lt_zpow_iff_log_lt (b := 2) (by norm_num) (abs_pos.2 hq)).1 (by exact_mod_cast h)
  have : max (Int.log 2 |q|) (-1022) ≤ e + 52 := max_le (by omega) (by omega)
  omega

theorem ulpExp_eq (q : ℚ) (e : ℤ) (he : -1022 ≤ e) (h1 : 2 ^ e ≤ |q|) (h2 : |q| < 2 ^ (e + 1)) :
    ulpExp q = e - 52 := by
  have hpos : 0 < |q| := lt_of_lt_of_le (by positivity) h1
  have a : e ≤ Int.log 2 |q| :=
    (Int.zpow_le_iff_le_log (b := 2) (by norm_num) hpos).1 (by exact_mod_cast h1)
  have b : Int.log 2 |q| < e + 1 :=
    (Int.lt_zpow_iff_log_lt (b := 2) (by norm_num) hpos).1 (by exact_mod_cast h2)
  unfold ulpExp
  rw [max_eq_left (by omega)]
  omega

theorem roundF64_zero : roundF64 0 = 0 := by
  simp [roundF64, roundEven]

/-- Rounding leaves every number `m * 2 ^ e` with a 53-bit `m` and `e ≥ -1074` unchanged. -/
theorem roundF64_of_dyadic (m e : ℤ) (hm : |m| < 2 ^ 53) (he : -1074 ≤ e) :
    roundF64 ((m : ℚ) * 2 ^ e) = (m : ℚ) * 2 ^ e := by
  rcases eq_or_ne m 0 with rfl | hm0
  · simp [roundF64_zero]
  have hE : ulpExp ((m : ℚ) * 2 ^ e) ≤ e := by
    apply ulpExp_le_of_abs_lt _ _ he
    · exact mul_ne_zero (by exact_mod_cast hm0) (by positivity)
    rw [abs_mul, abs_of_pos (by positivity : (0 : ℚ) < 2 ^ e),
      zpow_add₀ (by norm_num : (2 : ℚ) ≠ 0), mul_comm]
    have : (|(m : ℚ)|) < 2 ^ (53 : ℤ) := by exact_mod_cast hm
    exact mul_lt_mul_of_pos_left this (by positivity)
  unfold roundF64
  generalize ulpExp ((m : ℚ) * 2 ^ e) = E at hE
  obtain ⟨n, hn⟩ := Int.eq_ofNat_of_zero_le (sub_nonneg.2 hE)
  have h2 : ((m : ℚ) * 2 ^ e) / 2 ^ E = ((m * 2 ^ n : ℤ) : ℚ) := by
    have : e = E + n := by omega
    rw [this, zpow_add₀ (by norm_num : (2 : ℚ) ≠ 0)]
    push_cast
    field_simp
    ring
  rw [h2, roundEven_intCast, ← h2]
  field_simp

theorem roundF64_natCast (k : ℕ) (hk : k < 2 ^ 53) : roundF64 (k : ℚ) = k := by
  have := roundF64_of_dyadic (k : ℤ) 0 (by simpa using (by exact_mod_cast hk)) (by norm_num)
  simpa using this

theorem roundF64_half (k : ℕ) (hk : k < 2 ^ 53) : roundF64 ((k : ℚ) / 2) = (k : ℚ) / 2 := by
  have := roundF64_of_dyadic (k : ℤ) (-1) (by simpa using (by exact_mod_cast hk)) (by norm_num)
  simpa [div_eq_mul_inv] using this

theorem lit_0_0 : lit 0.0 = 0 := by
  have : (0.0 : ℚ) = 0 := by norm_num
  rw [lit, this, roundF64_zero]

theorem lit_1_0 : lit 1.0 = 1 := by
  have : (1.0 : ℚ) = ((1 : ℕ) : ℚ) := by norm_num
  rw [lit, this, roundF64_natCast 1 (by norm_num)]
  norm_num

theorem lit_0_5 : lit 0.5 = 1 / 2 := by
  have : (0.5 : ℚ) = ((1 : ℕ) : ℚ) / 2 := by norm_num
  rw [lit, this, roundF64_half 1 (by norm_num)]
  norm_num

/-- The double nearest to `0.6` is `0x3FE3333333333333`. -/
theorem lit_0_6 : lit 0.6 = 5404319552844595 / 9007199254740992 := by
  have h : (0.6 : ℚ) = 6 / 10 := by norm_num
  have hE : ulpExp (6 / 10) = -53 := by
    rw [ulpExp_eq (6 / 10) (-1) (by norm_num) (by norm_num [abs_of_pos])
      (by norm_num [abs_of_pos])]
    norm_num
  have hf : ⌊(6 / 10 : ℚ) / 2 ^ (-53 : ℤ)⌋ = 5404319552844595 := by
    rw [Int.floor_eq_iff]; constructor <;> norm_num
  rw [lit, h]
  unfold roundF64
  rw [hE]
  simp only [roundEven, hf]
  norm_num

/-- The double nearest to `0.4` is `0x3FD999999999999A`. -/
theorem lit_0_4 : lit 0.4 = 3602879701896397 / 9007199254740992 := by
  have h : (0.4 : ℚ) = 4 / 10 := by norm_num
  have hE : ulpExp (4 / 10) = -54 := by
    rw [ulpExp_eq (4 / 10) (-2) (by norm_num) (by norm_num [abs_of_pos])
      (by norm_num [abs_of_pos])]
    norm_num
  have hf : ⌊(4 / 10 : ℚ) / 2 ^ (-54 : ℤ)⌋ = 7205759403792793 := by
    rw [Int.floor_eq_iff]; constructor <;> norm_num
  rw [lit, h]
  unfold roundF64
  rw [hE]
  simp only [roundEven, hf]
  norm_num

theorem fadd_half (a b : ℕ) (h : a + b < 2 ^ 53) :
    fadd ((a : ℚ) / 2) ((b : ℚ) / 2) = ((a + b : ℕ) : ℚ) / 2 := by
  rw [fadd, ← add_div, ← Nat.cast_add, roundF64_half _ h]

theorem fadd_natCast (a b : ℕ) (h : a + b < 2 ^ 53) :
    fadd (a : ℚ) (b : ℚ) = ((a + b : ℕ) : ℚ) := by
  rw [fadd, ← Nat.cast_add, roundF64_natCast _ h]

/-! ## Sums of halves -/

theorem accumulate_replicate_half (n k : ℕ) (h : k + n < 2 ^ 53) :
    accumulate (List.replicate n (1 / 2)) ((k : ℚ) / 2) = ((k + n : ℕ) : ℚ) / 2 := by
  induction n generalizing k with
  | zero => simp [accumulate]
  | succ n ih =>
    have h1 : fadd ((k : ℚ) / 2) (1 / 2) = ((k + 1 : ℕ) : ℚ) / 2 := by
      have := fadd_half k 1 (by omega)
      simpa using this
    have := ih (k + 1) (by omega)
    simp only [accumulate, List.replicate_succ, List.foldl_cons] at this ⊢
    rw [h1, this]
    congr 2
    omega

/-- A grouping over operands that are halves of naturals `f i` evaluates to half the sum
of the `f i`, as long as that sum is below `2 ^ 53`: every partial sum is exact. -/
theorem SumTree.eval_halves (ops : List ℚ) (f : ℕ → ℕ) (t : SumTree)
    (hops : ∀ i ∈ t.leaves, ops.getD i 0 = (f i : ℚ) / 2)
    (hsum : (t.leaves.map f).sum < 2 ^ 53) :
    t.eval ops = (((t.leaves.map f).sum : ℕ) : ℚ) / 2 := by
  induction t with
  | leaf i => simpa [SumTree.eval, SumTree.leaves] using hops i (by simp [SumTree.leaves])
  | node l r ihl ihr =>
    simp only [SumTree.leaves, List.map_append, List.sum_append, List.mem_append] at hops hsum ⊢
    rw [SumTree.eval, ihl (fun i hi => hops i (Or.inl hi)) (by omega),
      ihr (fun i hi => hops i (Or.inr hi)) (by omega), fadd_half _ _ hsum]

theorem sum_map_range_indicator (n : ℕ) :
    ((List.range (n + 1)).map (fun i => if i = 0 then 0 else 1)).sum = n := by
  induction n with
  | zero => simp [List.range_succ]
  | succ n ih =>
    rw [List.range_succ, List.map_append, List.sum_append, ih]
    simp

theorem reduce_replicate_half (impl : ParImpl) (hv : impl.Valid) (p : Policy) (n : ℕ)
    (h : n < 2 ^ 53) : reduce impl p (List.replicate n (1 / 2)) 0 = (n : ℚ) / 2 := by
  have hperm := hv.1 p n
  have hsum : (((impl.reduceTree p n).leaves.map (fun i => if i = 0 then 0 else 1)).sum : ℕ) = n := by
    rw [(hperm.map _).sum_eq, sum_map_range_indicator]
  unfold reduce
  rw [List.length_replicate, SumTree.eval_halves _ (fun i => if i = 0 then 0 else 1) _ _
    (by rw [hsum]; exact h), hsum]
  intro i hi
  have hi2 : i < n + 1 := List.mem_range.1 (hperm.mem_iff.1 hi)
  rcases Nat.eq_zero_or_pos i with rfl | hpos
  · simp
  · obtain ⟨j, rfl⟩ := Nat.exists_eq_succ_of_ne_zero (Nat.pos_iff_ne_zero.1 hpos)
    have hj : j < n := by omega
    simp [List.getD_cons_succ, List.getD_eq_getElem?_getD, List.getElem?_replicate, hj]

theorem scan_eval_replicate_half (impl : ParImpl) (hv : impl.Valid) (p : Policy) (n k : ℕ)
    (hk : k < n) (h : n < 2 ^ 53) :
    (impl.scanTree p n k).eval (List.replicate n (1 / 2)) = ((k + 1 : ℕ) : ℚ) / 2 := by
  have hl := hv.2 p n k hk
  have hsum : (((impl.scanTree p n k).leaves.map (fun _ => 1)).sum : ℕ) = k + 1 := by
    rw [hl]; simp
  rw [SumTree.eval_halves _ (fun _ => 1) _ _ (by rw [hsum]; omega), hsum]
  intro i hi
  rw [hl] at hi
  have hi2 : i < n := by have := List.mem_range.1 hi; omega
  simp [List.getD_eq_getElem?_getD, List.getElem?_replicate, hi2]

/-! ## The algorithms on the two input vectors -/

theorem find_replicate_ne (p : Policy) (n : ℕ) (c value : ℚ) (h : c ≠ value) :
    find p (List.replicate n c) value = n := by
  induction n with
  | zero => rfl
  | succ n ih => simp [List.replicate_succ, find, h, ih]

theorem set_replicate_append (a : ℕ) (c z : ℚ) (l : List ℚ) :
    (List.replicate a c ++ z :: l).set a c = List.replicate (a + 1) c ++ l := by
  induction a with
  | zero => simp
  | succ a ih => simp [List.replicate_succ, ih]

theorem copy_if_loop_replicate (pred : ℚ → Bool) (c z : ℚ) (hc : pred c = true) (k a b : ℕ) :
    copy_if_loop pred (List.replicate k c) (List.replicate a c ++ List.replicate (k + b) z) a
      = some (List.replicate (a + k) c ++ List.replicate b z, a + k) := by
  induction k generalizing a with
  | zero => simp [copy_if_loop]
  | succ k ih =>
    have e : k + 1 + b = (k + b) + 1 := by omega
    have hlen : a < (List.replicate a c ++ List.replicate (k + b + 1) z).length := by
      simp only [List.length_append, List.length_replicate]; omega
    rw [e, List.replicate_succ, copy_if_loop, if_pos hc, if_pos hlen,
      List.replicate_succ (n := k + b), set_replicate_append, ih (a + 1)]
    have e2 : a + 1 + k = a + (k + 1) := by omega
    rw [e2]

theorem copy_if_replicate (p : Policy) (pred : ℚ → Bool) (c : ℚ) (hc : pred c = true) (n : ℕ) :
    copy_if p (List.replicate n c) (List.replicate n 0) pred = some (List.replicate n c, n) := by
  have := copy_if_loop_replicate pred c 0 hc n 0 0
  simpa [copy_if] using this

theorem is_partitioned_replicate (p : Policy) (pred : ℚ → Bool) (c : ℚ) (hc : pred c = true)
    (n : ℕ) : is_partitioned p (List.replicate n c) pred = true := by
  have : (List.replicate n c).dropWhile pred = [] := by
    induction n with
    | zero => rfl
    | succ n ih => simp [List.replicate_succ, List.dropWhile, hc, ih]
  simp [is_partitioned, this]

theorem lexicographical_compare_replicate (p : Policy) (c : ℚ) (a b : ℕ) :
    lexicographical_compare p (List.replicate a c) (List.replicate b c) = decide (a < b) := by
  induction a generalizing b with
  | zero => cases b <;> simp [lexicographical_compare, List.replicate_succ]
  | succ a ih =>
    cases b with
    | zero => simp [lexicographical_compare, List.replicate_succ]
    | succ b => simp [lexicographical_compare, List.replicate_succ, ih]

/-- The iteration bound of `lower_bound_loop` is never what stops the loop: any two bounds
of at least `len` give the same result. -/
theorem lower_bound_loop_fuel (xs : List ℚ) (val : ℚ) (f₁ f₂ first len : ℕ) (h₁ : len ≤ f₁)
    (h₂ : len ≤ f₂) : lower_bound_loop xs val f₁ first len = lower_bound_loop xs val f₂ first len := by
  induction f₁ generalizing f₂ first len with
  | zero =>
    obtain rfl : len = 0 := by omega
    cases f₂ <;> simp [lower_bound_loop]
  | succ f₁ ih =>
    cases f₂ with
    | zero =>
      obtain rfl : len = 0 := by omega
      simp [lower_bound_loop]
    | succ f₂ =>
      rw [lower_bound_loop, lower_bound_loop]
      split
      · rfl
      · rename_i hne
        have hhalf : len / 2 < len := Nat.div_lt_self (Nat.pos_of_ne_zero hne) (by norm_num)
        simp only []
        split
        · exact ih _ _ _ (by omega) (by omega)
        · exact ih _ _ _ (by omega) (by omega)

/-- The iteration bound of `upper_bound_loop` is never what stops the loop. -/
theorem upper_bound_loop_fuel (xs : List ℚ) (val : ℚ) (f₁ f₂ first len : ℕ) (h₁ : len ≤ f₁)
    (h₂ : len ≤ f₂) : upper_bound_loop xs val f₁ first len = upper_bound_loop xs val f₂ first len := by
  induction f₁ generalizing f₂ first len with
  | zero =>
    obtain rfl : len = 0 := by omega
    cases f₂ <;> simp [upper_bound_loop]
  | succ f₁ ih =>
    cases f₂ with
    | zero =>
      obtain rfl : len = 0 := by omega
      simp [upper_bound_loop]
    | succ f₂ =>
      rw [upper_bound_loop, upper_bound_loop]
      split
      · rfl
      · rename_i hne
        have hhalf : len / 2 < len := Nat.div_lt_self (Nat.pos_of_ne_zero hne) (by norm_num)
        simp only []
        split
        · exact ih _ _ _ (by omega) (by omega)
        · exact ih _ _ _ (by omega) (by omega)

theorem lower_bound_loop_stays (xs : List ℚ) (val : ℚ)
    (h : ∀ i, i < xs.length → ¬ xs.getD i 0 < val)
    (fuel len : ℕ) (hlen : len ≤ xs.length) : lower_bound_loop xs val fuel 0 len = 0 := by
  induction fuel generalizing len with
  | zero => rfl
  | succ fuel ih =>
    rw [lower_bound_loop]
    split
    · rfl
    · rename_i hne
      have hmid : 0 + len / 2 < xs.length := by
        have : len / 2 < len := Nat.div_lt_self (Nat.pos_of_ne_zero hne) (by norm_num)
        omega
      simp only [if_neg (h _ hmid)]
      exact ih _ (by omega)

theorem upper_bound_loop_stays (xs : List ℚ) (val : ℚ) (h : ∀ i, i < xs.length → val < xs.getD i 0)
    (fuel len : ℕ) (hlen : len ≤ xs.length) : upper_bound_loop xs val fuel 0 len = 0 := by
  induction fuel generalizing len with
  | zero => rfl
  | succ fuel ih =>
    rw [upper_bound_loop]
    split
    · rfl
    · rename_i hne
      have hmid : 0 + len / 2 < xs.length := by
        have : len / 2 < len := Nat.div_lt_self (Nat.pos_of_ne_zero hne) (by norm_num)
        omega
      simp only [if_pos (h _ hmid)]
      exact ih _ (by omega)

theorem iota_replicate (z : ℚ) (n a : ℕ) (h : a + n < 2 ^ 53) :
    iota (List.replicate n z) (a : ℚ) = natsFrom a n := by
  induction n generalizing a with
  | zero => rfl
  | succ n ih =>
    have h1 : fadd (a : ℚ) 1 = ((a + 1 : ℕ) : ℚ) := by
      have := fadd_natCast a 1 (by omega)
      simpa using this
    rw [List.replicate_succ, iota, h1, ih (a + 1) (by omega), natsFrom, natsFrom,
      List.range'_succ, List.map_cons]

theorem vecV1_eq (n : ℕ) (h : n < 2 ^ 53 - 1) : vecV1 n = natsFrom 1 n := by
  have := iota_replicate 0 n 1 (by omega)
  rw [vecV1, lit_1_0]
  simpa using this

theorem vecV_eq (n : ℕ) : vecV n = List.replicate n (1 / 2) := by
  rw [vecV, lit_0_5]

theorem length_natsFrom (a n : ℕ) : (natsFrom a n).length = n := by
  simp [natsFrom]

theorem getElem?_natsFrom (a n i : ℕ) (h : i < n) : (natsFrom a n)[i]? = some ((a + i : ℕ) : ℚ) := by
  simp [natsFrom, List.getElem?_range' _ _ h]

theorem getD_natsFrom (a n i : ℕ) (h : i < n) : (natsFrom a n).getD i 0 = ((a + i : ℕ) : ℚ) := by
  rw [List.getD_eq_getElem?_getD, getElem?_natsFrom a n i h]
  rfl

theorem mem_natsFrom (a n : ℕ) (x : ℚ) (h : x ∈ natsFrom a n) : (a : ℚ) ≤ x := by
  simp only [natsFrom, List.mem_map, List.mem_range'_1] at h
  obtain ⟨i, hi, rfl⟩ := h
  exact_mod_cast hi.1

theorem min_element_loop_stays (xs : List ℚ) (bv : ℚ) (h : ∀ x ∈ xs, ¬ x < bv) (i best : ℕ) :
    min_element_loop xs i best bv = best := by
  induction xs generalizing i with
  | nil => rfl
  | cons x xs ih =>
    rw [min_element_loop, if_neg (h x (List.mem_cons_self _ _))]
    exact ih (fun y hy => h y (List.mem_cons_of_mem _ hy)) _

theorem max_element_loop_natsFrom (n a i best : ℕ) (bv : ℚ) (h : bv < a) :
    max_element_loop (natsFrom a n) i best bv = if n = 0 then best else i + n - 1 := by
  induction n generalizing a i best bv with
  | zero => rfl
  | succ n ih =>
    have hlt : ((a : ℕ) : ℚ) < ((a + 1 : ℕ) : ℚ) := by exact_mod_cast Nat.lt_succ_self a
    rw [natsFrom, List.range'_succ, List.map_cons, ← natsFrom, max_element_loop, if_pos h,
      ih (a + 1) (i + 1) i a hlt, if_neg (Nat.succ_ne_zero n)]
    split <;> omega

theorem last_max_loop_natsFrom (n a i best : ℕ) (bv : ℚ) (h : bv < a) :
    last_max_loop (natsFrom a n) i best bv = if n = 0 then best else i + n - 1 := by
  induction n generalizing a i best bv with
  | zero => rfl
  | succ n ih =>
    have hlt : ((a : ℕ) : ℚ) < ((a + 1 : ℕ) : ℚ) := by exact_mod_cast Nat.lt_succ_self a
    rw [natsFrom, List.range'_succ, List.map_cons, ← natsFrom, last_max_loop,
      if_neg (not_lt.2 h.le), ih (a + 1) (i + 1) i a hlt, if_neg (Nat.succ_ne_zero n)]
    split <;> omega

theorem min_element_natsFrom (p : Policy) (a n : ℕ) : min_element p (natsFrom a n) = 0 := by
  cases n with
  | zero => rfl
  | succ n =>
    rw [natsFrom, List.range'_succ, List.map_cons, ← natsFrom, min_element]
    apply min_element_loop_stays
    intro x hx
    have := mem_natsFrom _ _ _ hx
    have hlt : ((a : ℕ) : ℚ) < ((a + 1 : ℕ) : ℚ) := by exact_mod_cast Nat.lt_succ_self a
    exact not_lt.2 (hlt.le.trans this)

theorem max_element_natsFrom (p : Policy) (a n : ℕ) : max_element p (natsFrom a n) = n - 1 := by
  cases n with
  | zero => rfl
  | succ n =>
    have hlt : ((a : ℕ) : ℚ) < ((a + 1 : ℕ) : ℚ) := by exact_mod_cast Nat.lt_succ_self a
    rw [natsFrom, List.range'_succ, List.map_cons, ← natsFrom, max_element,
      max_element_loop_natsFrom n (a + 1) 1 0 a hlt]
    split <;> omega

theorem minmax_element_natsFrom (p : Policy) (a n : ℕ) :
    minmax_element p (natsFrom a n) = (0, n - 1) := by
  cases n with
  | zero => rfl
  | succ n =>
    have hlt : ((a : ℕ) : ℚ) < ((a + 1 : ℕ) : ℚ) := by exact_mod_cast Nat.lt_succ_self a
    have h0 := min_element_natsFrom p a (n + 1)
    rw [natsFrom, List.range'_succ, List.map_cons, ← natsFrom, min_element] at h0
    rw [natsFrom, List.range'_succ, List.map_cons, ← natsFrom, minmax_element, h0,
      last_max_loop_natsFrom n (a + 1) 1 0 a hlt]
    congr 1
    split <;> omega

/-! ## Values of the thirteen lambdas -/

theorem lam_accumulate_vecV (n : ℕ) (h : n < 2 ^ 53) :
    lam_accumulate (vecV n) = some (.f64 ((n : ℚ) / 2)) := by
  have := accumulate_replicate_half n 0 (by omega)
  rw [lam_accumulate, vecV_eq, lit_0_0]
  simp only [Nat.cast_zero, zero_div, zero_add] at this
  rw [this]

theorem lam_reduce_vecV (impl : ParImpl) (hv : impl.Valid) (p : Policy) (n : ℕ) (h : n < 2 ^ 53) :
    lam_reduce impl p (vecV n) = some (.f64 ((n : ℚ) / 2)) := by
  rw [lam_reduce, vecV_eq, lit_0_0, reduce_replicate_half impl hv p n h]

theorem lam_find_vecV (p : Policy) (n : ℕ) : lam_find p (vecV n) = some (.f64 0) := by
  have hne : (1 / 2 : ℚ) ≠ lit 0.6 := by rw [lit_0_6]; norm_num
  simp only [lam_find, vecV_eq, find_replicate_ne p n _ _ hne, List.length_replicate, if_true,
    lit_0_0]

theorem lam_copy_if_vecV (p : Policy) (n : ℕ) :
    lam_copy_if p (vecV n) (List.replicate (vecV n).length 0) = some (.diff n) := by
  have hc : (fun value : ℚ => decide (lit 0.4 < value)) (1 / 2) = true := by
    rw [lit_0_4]; simp; norm_num
  rw [lam_copy_if, vecV_eq, List.length_replicate, copy_if_replicate p _ _ hc n]
  simp

theorem inclusive_scan_vecV (impl : ParImpl) (hv : impl.Valid) (p : Policy) (n : ℕ)
    (h : n < 2 ^ 53) :
    inclusive_scan impl p (vecV n) (List.replicate (vecV n).length 0)
      = some ((List.range n).map (fun k => ((k + 1 : ℕ) : ℚ) / 2)) := by
  rw [vecV_eq, inclusive_scan, List.length_replicate, List.length_replicate, if_pos le_rfl,
    List.drop_replicate, Nat.sub_self, List.replicate_zero, List.append_nil]
  congr 1
  apply List.map_congr_left
  intro k hk
  exact scan_eval_replicate_half impl hv p n k (List.mem_range.1 hk) h

theorem lam_inclusive_scan_vecV (impl : ParImpl) (hv : impl.Valid) (p : Policy) (n : ℕ)
    (h1 : 1 ≤ n) (h : n < 2 ^ 53) :
    lam_inclusive_scan impl p (vecV n) = some (.f64 ((n : ℚ) / 2)) := by
  obtain ⟨m, rfl⟩ : ∃ m, n = m + 1 := ⟨n - 1, by omega⟩
  simp only [lam_inclusive_scan]
  rw [inclusive_scan_vecV impl hv p _ h]
  simp [List.range_succ]

theorem lam_inclusive_scan_isSome (impl : ParImpl) (p : Policy) (n : ℕ) (h1 : 1 ≤ n) :
    ∃ x, lam_inclusive_scan impl p (vecV n) = some (.f64 x) := by
  obtain ⟨m, rfl⟩ : ∃ m, n = m + 1 := ⟨n - 1, by omega⟩
  simp [lam_inclusive_scan, inclusive_scan, vecV, List.range_succ]

theorem lam_min_element_vecV1 (p : Policy) (n : ℕ) (h1 : 1 ≤ n) (h : n < 2 ^ 53 - 1) :
    lam_min_element p (vecV1 n) = some (.f64 1) := by
  rw [lam_min_element, vecV1_eq n h, min_element_natsFrom, deref, getElem?_natsFrom 1 n 0 h1]
  simp

theorem lam_max_element_vecV1 (p : Policy) (n : ℕ) (h1 : 1 ≤ n) (h : n < 2 ^ 53 - 1) :
    lam_max_element p (vecV1 n) = some (.f64 n) := by
  rw [lam_max_element, vecV1_eq n h, max_element_natsFrom, deref,
    getElem?_natsFrom 1 n (n - 1) (by omega)]
  have : 1 + (n - 1) = n := by omega
  simp [this]

theorem lam_minmax_element_vecV1 (p : Policy) (n : ℕ) (h1 : 1 ≤ n) (h : n < 2 ^ 53 - 1) :
    lam_minmax_element p (vecV1 n) = some (.f64 (1 + (n : ℚ))) := by
  have e : 1 + (n - 1) = n := by omega
  have hadd : fadd 1 (n : ℚ) = 1 + (n : ℚ) := by
    have := fadd_natCast 1 n (by omega)
    simpa using this
  simp only [lam_minmax_element, vecV1_eq n h, minmax_element_natsFrom, deref,
    getElem?_natsFrom 1 n 0 h1, getElem?_natsFrom 1 n (n - 1) (by omega), e]
  simp [hadd]

theorem lam_is_partitioned_vecV (p : Policy) (n : ℕ) :
    lam_is_partitioned p (vecV n) = some (.bool true) := by
  have hc : (fun x : ℚ => decide (x < lit 1.0)) (1 / 2) = true := by
    rw [lit_1_0]; simp; norm_num
  rw [lam_is_partitioned, vecV_eq, is_partitioned_replicate p _ _ hc n]

theorem lam_lexicographical_compare_vecV (p : Policy) (n : ℕ) :
    lam_lexicographical_compare p (vecV n) = some (.bool (decide (n < 1024000000))) := by
  simp only [lam_lexicographical_compare, vecV]
  rw [lexicographical_compare_replicate]

theorem lower_bound_vecV (n : ℕ) : lower_bound (vecV n) (lit 0.5) = 0 := by
  rw [lower_bound, vecV_eq, lit_0_5]
  apply lower_bound_loop_stays _ _ _ _ _ le_rfl
  intro i hi
  rw [List.length_replicate] at hi
  simp [List.getD_eq_getElem?_getD, List.getElem?_replicate, hi]

theorem lam_binary_search_vecV (n : ℕ) (h1 : 1 ≤ n) :
    lam_binary_search (vecV n) = some (.bool true) := by
  have hl := lower_bound_vecV n
  have hn : 0 ≠ n := by omega
  simp only [lam_binary_search, binary_search, hl]
  rw [vecV_eq, lit_0_5]
  obtain ⟨m, rfl⟩ : ∃ m, n = m + 1 := ⟨n - 1, by omega⟩
  simp [List.replicate_succ]

theorem lower_bound_vecV1 (n : ℕ) (h : n < 2 ^ 53 - 1) : lower_bound (vecV1 n) (lit 0.5) = 0 := by
  rw [lower_bound, vecV1_eq n h, lit_0_5]
  apply lower_bound_loop_stays _ _ _ _ _ le_rfl
  intro i hi
  rw [length_natsFrom] at hi
  rw [getD_natsFrom 1 n i hi]
  have : (1 : ℚ) ≤ ((1 + i : ℕ) : ℚ) := by exact_mod_cast Nat.le_add_right 1 i
  linarith

theorem upper_bound_vecV1 (n : ℕ) (h : n < 2 ^ 53 - 1) : upper_bound (vecV1 n) (lit 0.5) = 0 := by
  rw [upper_bound, vecV1_eq n h, lit_0_5]
  apply upper_bound_loop_stays _ _ _ _ _ le_rfl
  intro i hi
  rw [length_natsFrom] at hi
  rw [getD_natsFrom 1 n i hi]
  have : (1 : ℚ) ≤ ((1 + i : ℕ) : ℚ) := by exact_mod_cast Nat.le_add_right 1 i
  linarith

theorem lam_lower_bound_vecV1 (n : ℕ) (h1 : 1 ≤ n) (h : n < 2 ^ 53 - 1) :
    lam_lower_bound (vecV1 n) = some (.f64 1) := by
  rw [lam_lower_bound, lower_bound_vecV1 n h, vecV1_eq n h, deref, getElem?_natsFrom 1 n 0 h1]
  simp

theorem lam_upper_bound_vecV1 (n : ℕ) (h1 : 1 ≤ n) (h : n < 2 ^ 53 - 1) :
    lam_upper_bound (vecV1 n) = some (.f64 1) := by
  rw [lam_upper_bound, upper_bound_vecV1 n h, vecV1_eq n h, deref, getElem?_natsFrom 1 n 0 h1]
  simp

/-! ## The run as a whole -/

theorem RunTestsN_shape (size : ℕ) (h1 : 1 ≤ size) (h : size < 2 ^ 53 - 1) (impl : ParImpl)
    (clock : ℕ → ℤ) (p : Policy) (w : World) (r s : ℚ)
    (hr : lam_reduce impl p (vecV size) = some (.f64 r))
    (hs : lam_inclusive_scan impl p (vecV size) = some (.f64 s)) :
    RunTestsN size impl clock p w
      = some { out := w.out ++ runLines size clock w.ticks r s, ticks := w.ticks + 26,
               calls := w.calls ++ [p] } := by
  simp only [RunTestsN, RunAndMeasure, hr, hs, lam_accumulate_vecV size (by omega),
    lam_find_vecV, lam_copy_if_vecV, lam_min_element_vecV1 p size h1 h,
    lam_max_element_vecV1 p size h1 h, lam_minmax_element_vecV1 p size h1 h,
    lam_is_partitioned_vecV, lam_lexicographical_compare_vecV, lam_binary_search_vecV size h1,
    lam_lower_bound_vecV1 size h1 h, lam_upper_bound_vecV1 size h1 h,
    Option.bind_eq_bind, Option.some_bind, runLines, List.append_assoc, List.cons_append,
    List.nil_append, Nat.add_assoc, Nat.reduceAdd]

theorem lam_reduce_isSome (impl : ParImpl) (p : Policy) (v : List ℚ) :
    ∃ x, lam_reduce impl p v = some (.f64 x) := ⟨_, rfl⟩

theorem size_lt : (1024000000 : ℕ) < 2 ^ 53 - 1 := by norm_num

theorem main_of_choice (impl : ParImpl) (clock : ℕ → ℤ) (stdin : List Char) (indet : Char)
    (p : Policy) (hc : policyOf (extract stdin indet) = some p) (r s : ℚ)
    (hr : lam_reduce impl p (vecV 1024000000) = some (.f64 r))
    (hs : lam_inclusive_scan impl p (vecV 1024000000) = some (.f64 s)) :
    main impl clock stdin indet
      = some ({ out := prompt ++ Out.text (confirmation p) :: runLines 1024000000 clock 0 r s,
                ticks := 26, calls := [p] }, 0) := by
  have hshape := fun w => RunTestsN_shape 1024000000 (by norm_num) size_lt impl clock p w r s hr hs
  unfold policyOf at hc
  split_ifs at hc with h1 h2 h3
  · cases hc
    simp [main, h1, RunTests, hshape, confirmation]
  · cases hc
    simp [main, h1, h2, RunTests, hshape, confirmation]
  · cases hc
    simp [main, h1, h2, h3, RunTests, hshape, confirmation]

theorem main_of_other (impl : ParImpl) (clock : ℕ → ℤ) (stdin : List Char) (indet : Char)
    (hc : policyOf (extract stdin indet) = none) :
    main impl clock stdin indet
      = some ({ out := prompt ++ [Out.text "Exiting program.\n"], ticks := 0, calls := [] }, 0) := by
  unfold policyOf at hc
  split_ifs at hc with h1 h2 h3
  simp [main, h1, h2, h3]

theorem resultLines_main_out (p : Policy) (clock : ℕ → ℤ) (r s : ℚ) :
    resultLines (prompt ++ Out.text (confirmation p) :: runLines 1024000000 clock 0 r s)
      = [("std::accumulate", Val.f64 512000000), ("std::reduce", Val.f64 r),
         ("std::find", Val.f64 0), ("std::copy_if", Val.diff 1024000000),
         ("std::inclusive_scan", Val.f64 s), ("std::min_element", Val.f64 1),
         ("std::max_element", Val.f64 1024000000), ("std::minmax_element", Val.f64 1024000001),
         ("std::is_partitioned", Val.bool true), ("std::lexicographical_compare", Val.bool false),
         ("std::binary_search", Val.bool true), ("std::lower_bound", Val.f64 1),
         ("std::upper_bound", Val.f64 1)] := by
  simp [prompt, resultLines, runLines]
  norm_num

theorem leaves_leftTree (n : ℕ) : (leftTree n).leaves = List.range (n + 1) := by
  induction n with
  | zero => rfl
  | succ n ih => rw [leftTree, SumTree.leaves, ih, SumTree.leaves, ← List.range_succ]

theorem leaves_rightTree (lo n : ℕ) : (rightTree lo n).leaves = List.range' lo (n + 1) := by
  induction n generalizing lo with
  | zero => rfl
  | succ n ih => rw [rightTree, SumTree.leaves, ih, SumTree.leaves, List.range'_succ]; rfl

theorem demoImpl_valid : demoImpl.Valid := by
  constructor
  · intro p n
    cases p
    · simp only [demoImpl]; rw [leaves_leftTree]
    · simp only [demoImpl]; rw [leaves_rightTree, List.range_eq_range']
    · simp only [demoImpl]; rw [leaves_rightTree, List.range_eq_range']
  · intro p n k _
    cases p
    · simp only [demoImpl]; rw [leaves_leftTree]
    · simp only [demoImpl]; rw [leaves_rightTree, List.range_eq_range']
    · simp only [demoImpl]; rw [leaves_rightTree, List.range_eq_range']

theorem lt_of_le_INT_MAX (n : ℕ) (h : n ≤ INT_MAX) : n < 2 ^ 53 - 1 := by
  have e : (2 : ℕ) ^ 53 = 9007199254740992 := by norm_num
  unfold INT_MAX at h
  omega

theorem resultLines_append (a b : List Out) :
    resultLines (a ++ b) = resultLines a ++ resultLines b := by
  induction a with
  | nil => rfl
  | cons x a ih => cases x <;> simp [resultLines, ih]

theorem resultLines_runLines (size : ℕ) (clock : ℕ → ℤ) (t : ℕ) (r s : ℚ) :
    resultLines (runLines size clock t r s)
      = [("std::accumulate", Val.f64 ((size : ℚ) / 2)), ("std::reduce", Val.f64 r),
         ("std::find", Val.f64 0), ("std::copy_if", Val.diff size),
         ("std::inclusive_scan", Val.f64 s), ("std::min_element", Val.f64 1),
         ("std::max_element", Val.f64 size), ("std::minmax_element", Val.f64 (1 + (size : ℚ))),
         ("std::is_partitioned", Val.bool true),
         ("std::lexicographical_compare", Val.bool (decide (size < 1024000000))),
         ("std::binary_search", Val.bool true), ("std::lower_bound", Val.f64 1),
         ("std::upper_bound", Val.f64 1)] := by
  simp [resultLines, runLines]

/-- Output of `main` on a valid choice: the result lines of the whole run, with `r` and `s`
the values reported for `std::reduce` and `std::inclusive_scan`. -/
theorem main_lines (impl : ParImpl) (clock : ℕ → ℤ) (stdin : List Char) (indet : Char)
    (p : Policy) (hc : policyOf (extract stdin indet) = some p) :
    ∃ w r s, main impl clock stdin indet = some (w, 0) ∧
      lam_reduce impl p (vecV 1024000000) = some (.f64 r) ∧
      lam_inclusive_scan impl p (vecV 1024000000) = some (.f64 s) ∧
      w.out = prompt ++ Out.text (confirmation p) :: runLines 1024000000 clock 0 r s ∧
      w.ticks = 26 ∧ w.calls = [p] ∧
      resultLines w.out
        = [("std::accumulate", Val.f64 512000000), ("std::reduce", Val.f64 r),
           ("std::find", Val.f64 0), ("std::copy_if", Val.diff 1024000000),
           ("std::inclusive_scan", Val.f64 s), ("std::min_element", Val.f64 1),
           ("std::max_element", Val.f64 1024000000),
           ("std::minmax_element", Val.f64 1024000001),
           ("std::is_partitioned", Val.bool true),
           ("std::lexicographical_compare", Val.bool false),
           ("std::binary_search", Val.bool true), ("std::lower_bound", Val.f64 1),
           ("std::upper_bound", Val.f64 1)] := by
  obtain ⟨r, hr⟩ := lam_reduce_isSome impl p (vecV 1024000000)
  obtain ⟨s, hs⟩ := lam_inclusive_scan_isSome impl p 1024000000 (by norm_num)
  exact ⟨_, r, s, main_of_choice impl clock stdin indet p hc r s hr hs, hr, hs, rfl, rfl, rfl,
    resultLines_main_out p clock r s⟩

/-! ## Console contract of `main` -/

/-- C1, as stated, fails: on the console input `1` the run of `main` completes with exit
code 0 and prints thirteen result lines, not twelve. -/
theorem main_twelve_lines_counterexample :
    ∃ w, main demoImpl (fun n => (n : ℤ)) ['1'] 'x' = some (w, 0) ∧
      (resultLines w.out).length = 13 ∧ (resultLines w.out).length ≠ 12 := by
  obtain ⟨w, r, s, hm, -, -, -, -, -, hlines⟩ :=
    main_lines demoImpl (fun n => (n : ℤ)) ['1'] 'x' .seq (by decide)
  refine ⟨w, hm, ?_, ?_⟩
  · rw [hlines]; rfl
  · rw [hlines]; simp

/-- C1 (amended): when the character extracted from the console input is `1`, `2` or `3`,
`main` terminates with exit code 0 and enters `RunTests` once with the selected policy; its
whole output is the prompt, then the confirmation line of that policy, then exactly thirteen
result lines and nothing else, titled in the order accumulate, reduce, find, copy_if,
inclusive_scan, min_element, max_element, minmax_element, is_partitioned,
lexicographical_compare, binary_search, lower_bound, upper_bound; the confirmation line
occurs exactly once in the output. -/
theorem main_valid_choice_output (impl : ParImpl) (clock : ℕ → ℤ) (stdin : List Char)
    (indet : Char) (p : Policy) (hc : policyOf (extract stdin indet) = some p) :
    ∃ w, main impl clock stdin indet = some (w, 0) ∧ w.calls = [p] ∧
      w.out.count (Out.text (confirmation p)) = 1 ∧
      (resultLines w.out).length = 13 ∧
      (resultLines w.out).map Prod.fst = titles ∧
      ∃ lines : List (ℤ × Val), lines.length = 13 ∧
        w.out = prompt ++ Out.text (confirmation p) ::
          List.zipWith (fun title l => Out.line title l.1 l.2) titles lines := by
  obtain ⟨w, r, s, hm, -, -, hout, -, hcalls, hlines⟩ := main_lines impl clock stdin indet p hc
  refine ⟨w, hm, hcalls, ?_, ?_, ?_, ?_⟩
  · rw [hout]
    cases p <;> simp [prompt, runLines, confirmation, List.count_cons]
  · rw [hlines]; rfl
  · rw [hlines]; rfl
  · refine ⟨(runLines 1024000000 clock 0 r s).filterMap (fun o =>
      match o with
      | Out.line _ e v => some (e, v)
      | Out.text _ => none), ?_, ?_⟩
    · simp [runLines]
    · rw [hout]
      simp [runLines, titles]

/-- Instance of C1 (amended) on the console input `2`. -/
theorem main_valid_choice_output_witness :
    policyOf (extract ['2'] 'x') = some Policy.par ∧
    ∃ w, main demoImpl (fun n => (n : ℤ)) ['2'] 'x' = some (w, 0) ∧ w.calls = [Policy.par] ∧
      w.out.count (Out.text (confirmation Policy.par)) = 1 ∧
      (resultLines w.out).length = 13 ∧
      (resultLines w.out).map Prod.fst = titles ∧
      ∃ lines : List (ℤ × Val), lines.length = 13 ∧
        w.out = prompt ++ Out.text (confirmation Policy.par) ::
          List.zipWith (fun title l => Out.line title l.1 l.2) titles lines :=
  ⟨by decide, main_valid_choice_output demoImpl (fun n => (n : ℤ)) ['2'] 'x' Policy.par (by decide)⟩

/-- C2: when the character left in `policy_choice` by the extraction is none of `1`, `2`, `3`,
`main` prints, after the prompt, exactly the line `Exiting program.`, never enters `RunTests`
(no clock reading, no result line) and returns exit code 0; and a run of `main` enters
`RunTests` if and only if that character is `1`, `2` or `3`. -/
theorem main_exit_path (impl : ParImpl) (clock : ℕ → ℤ) (stdin : List Char) (indet : Char) :
    (extract stdin indet ≠ '1' → extract stdin indet ≠ '2' → extract stdin indet ≠ '3' →
      ∃ w, main impl clock stdin indet = some (w, 0) ∧
        w.out = prompt ++ [Out.text "Exiting program.\n"] ∧ w.calls = [] ∧ w.ticks = 0 ∧
        resultLines w.out = []) ∧
    ((∃ w code, main impl clock stdin indet = some (w, code) ∧ w.calls ≠ []) ↔
      (extract stdin indet = '1' ∨ extract stdin indet = '2' ∨ extract stdin indet = '3')) := by
  constructor
  · intro h1 h2 h3
    have hc : policyOf (extract stdin indet) = none := by simp [policyOf, h1, h2, h3]
    exact ⟨_, main_of_other impl clock stdin indet hc, rfl, rfl, rfl, rfl⟩
  · constructor
    · rintro ⟨w, code, hm, hcalls⟩
      by_contra hne
      push_neg at hne
      have hc : policyOf (extract stdin indet) = none := by simp [policyOf, hne.1, hne.2.1, hne.2.2]
      rw [main_of_other impl clock stdin indet hc] at hm
      cases hm
      exact hcalls rfl
    · intro h
      have hc : ∃ p, policyOf (extract stdin indet) = some p := by
        rcases h with h | h | h <;> rw [h]
        · exact ⟨Policy.seq, by decide⟩
        · exact ⟨Policy.par, by decide⟩
        · exact ⟨Policy.par_unseq, by decide⟩
      obtain ⟨p, hp⟩ := hc
      obtain ⟨w, r, s, hm, -, -, -, -, hcalls, -⟩ := main_lines impl clock stdin indet p hp
      exact ⟨w, 0, hm, by rw [hcalls]; simp⟩

/-- Instance of C2 on the console input `q`. -/
theorem main_exit_path_witness :
    ∃ w, main demoImpl (fun n => (n : ℤ)) ['q'] 'x' = some (w, 0) ∧
      w.out = prompt ++ [Out.text "Exiting program.\n"] ∧ w.calls = [] ∧ w.ticks = 0 ∧
      resultLines w.out = [] :=
  (main_exit_path demoImpl (fun n => (n : ℤ)) ['q'] 'x').1 (by decide) (by decide) (by decide)

/-! ## Reported values -/

/-- C3: for every length `1 ≤ size ≤ INT_MAX` (the program's `1024000000` included), every
conforming library and any two policies `p` and `q`, the runs `RunTests(p)` and `RunTests(q)`
both complete, print thirteen more result lines, and report the same list of titled results;
only the elapsed times (the clocks) may differ. -/
theorem policy_independence (size : ℕ) (h1 : 1 ≤ size) (h : size ≤ INT_MAX) (impl : ParImpl)
    (hv : impl.Valid) (clock₁ clock₂ : ℕ → ℤ) (w : World) (p q : Policy) :
    ∃ wp wq, RunTestsN size impl clock₁ p w = some wp ∧
      RunTestsN size impl clock₂ q w = some wq ∧
      resultLines wp.out = resultLines wq.out ∧
      (resultLines wp.out).length = (resultLines w.out).length + 13 := by
  have hb := lt_of_le_INT_MAX size h
  have hp := RunTestsN_shape size h1 hb impl clock₁ p w _ _
    (lam_reduce_vecV impl hv p size (by omega)) (lam_inclusive_scan_vecV impl hv p size h1 (by omega))
  have hq := RunTestsN_shape size h1 hb impl clock₂ q w _ _
    (lam_reduce_vecV impl hv q size (by omega)) (lam_inclusive_scan_vecV impl hv q size h1 (by omega))
  refine ⟨_, _, hp, hq, ?_, ?_⟩
  · simp only [resultLines_append, resultLines_runLines]
  · simp only [resultLines_append, resultLines_runLines, List.length_append]
    rfl

/-- Instance of C3 at the program's size, for `seq` against `par_unseq`. -/
theorem policy_independence_witness :
    (1 ≤ 1024000000 ∧ 1024000000 ≤ INT_MAX ∧ demoImpl.Valid) ∧
    ∃ wp wq,
      RunTestsN 1024000000 demoImpl (fun n => (n : ℤ)) Policy.seq ⟨prompt, 0, []⟩ = some wp ∧
      RunTestsN 1024000000 demoImpl (fun n => 2 * (n : ℤ)) Policy.par_unseq ⟨prompt, 0, []⟩
        = some wq ∧
      resultLines wp.out = resultLines wq.out ∧
      (resultLines wp.out).length = (resultLines (World.mk prompt 0 []).out).length + 13 :=
  ⟨⟨by decide, by decide, demoImpl_valid⟩,
   policy_independence 1024000000 (by decide) (by decide) demoImpl demoImpl_valid
     (fun n => (n : ℤ)) (fun n => 2 * (n : ℤ)) ⟨prompt, 0, []⟩ Policy.seq Policy.par_unseq⟩

theorem half_mul (n : ℕ) : (0.5 : ℚ) * (n : ℚ) = (n : ℚ) / 2 := by
  norm_num
  ring

theorem reported_of_lines (out : List Out) (ls : List (String × Val)) (title : String)
    (h : resultLines out = ls) :
    reported out title = (ls.find? (fun l => l.1 = title)).map (fun l => l.2) := by
  rw [reported, h]

/-- C4: for every length `size` of type `int` (`0 ≤ size ≤ INT_MAX`), every conforming library
and every policy, the lambdas measured as `std::accumulate` and `std::reduce` over `v` both
return `0.5 * size`; and in the program (`size = 1024000000`) both result lines report
`0.5 * 1024000000`. -/
theorem accumulate_reduce_value (size : ℕ) (h : size ≤ INT_MAX) (impl : ParImpl)
    (hv : impl.Valid) (p : Policy) (clock : ℕ → ℤ) (stdin : List Char) (indet : Char)
    (hc : policyOf (extract stdin indet) = some p) :
    lam_accumulate (vecV size) = some (Val.f64 (0.5 * (size : ℚ))) ∧
    lam_reduce impl p (vecV size) = some (Val.f64 (0.5 * (size : ℚ))) ∧
    ∃ w, main impl clock stdin indet = some (w, 0) ∧
      reported w.out "std::accumulate" = some (Val.f64 (0.5 * 1024000000)) ∧
      reported w.out "std::reduce" = some (Val.f64 (0.5 * 1024000000)) := by
  have hb := lt_of_le_INT_MAX size h
  refine ⟨?_, ?_, ?_⟩
  · rw [half_mul, lam_accumulate_vecV size (by omega)]
  · rw [half_mul, lam_reduce_vecV impl hv p size (by omega)]
  · obtain ⟨w, r, s, hm, hr, -, -, -, -, hlines⟩ := main_lines impl clock stdin indet p hc
    rw [lam_reduce_vecV impl hv p _ (by norm_num)] at hr
    cases hr
    refine ⟨w, hm, ?_, ?_⟩
    · rw [reported_of_lines _ _ _ hlines]
      simp
      norm_num
    · rw [reported_of_lines _ _ _ hlines]
      simp
      norm_num

/-- Instance of C4 at `size = 6` under `par`. -/
theorem accumulate_reduce_value_witness :
    (6 ≤ INT_MAX ∧ demoImpl.Valid ∧ policyOf (extract ['2'] 'x') = some Policy.par) ∧
    lam_accumulate (vecV 6) = some (Val.f64 (0.5 * ((6 : ℕ) : ℚ))) ∧
    lam_reduce demoImpl Policy.par (vecV 6) = some (Val.f64 (0.5 * ((6 : ℕ) : ℚ))) ∧
    ∃ w, main demoImpl (fun n => (n : ℤ)) ['2'] 'x' = some (w, 0) ∧
      reported w.out "std::accumulate" = some (Val.f64 (0.5 * 1024000000)) ∧
      reported w.out "std::reduce" = some (Val.f64 (0.5 * 1024000000)) :=
  ⟨⟨by decide, demoImpl_valid, by decide⟩,
   accumulate_reduce_value 6 (by decide) demoImpl demoImpl_valid Policy.par (fun n => (n : ℤ))
     ['2'] 'x' (by decide)⟩

/-- C5: for every length `1 ≤ size ≤ INT_MAX` and every policy, over `v1 = 1.0, ..., size`
the lambda measured as `std::min_element` returns `1.0`, the one measured as
`std::max_element` returns `size`, the one measured as `std::minmax_element` returns
`1.0 + size`; and in the program the three result lines report `1`, `1024000000` and
`1024000001`. -/
theorem min_max_value (size : ℕ) (h1 : 1 ≤ size) (h : size ≤ INT_MAX) (impl : ParImpl)
    (p : Policy) (clock : ℕ → ℤ) (stdin : List Char) (indet : Char)
    (hc : policyOf (extract stdin indet) = some p) :
    lam_min_element p (vecV1 size) = some (Val.f64 1.0) ∧
    lam_max_element p (vecV1 size) = some (Val.f64 (size : ℚ)) ∧
    lam_minmax_element p (vecV1 size) = some (Val.f64 (1.0 + (size : ℚ))) ∧
    ∃ w, main impl clock stdin indet = some (w, 0) ∧
      reported w.out "std::min_element" = some (Val.f64 1.0) ∧
      reported w.out "std::max_element" = some (Val.f64 1024000000) ∧
      reported w.out "std::minmax_element" = some (Val.f64 (1.0 + 1024000000)) := by
  have hb := lt_of_le_INT_MAX size h
  have e1 : (1.0 : ℚ) = 1 := by norm_num
  refine ⟨?_, ?_, ?_, ?_⟩
  · rw [e1, lam_min_element_vecV1 p size h1 hb]
  · rw [lam_max_element_vecV1 p size h1 hb]
  · rw [e1, lam_minmax_element_vecV1 p size h1 hb]
  · obtain ⟨w, r, s, hm, -, -, -, -, -, hlines⟩ := main_lines impl clock stdin indet p hc
    refine ⟨w, hm, ?_, ?_, ?_⟩
    · rw [reported_of_lines _ _ _ hlines, e1]; simp
    · rw [reported_of_lines _ _ _ hlines]; simp
    · rw [reported_of_lines _ _ _ hlines, e1]; simp; norm_num

/-- Instance of C5 at `size = 5` under `par_unseq`. -/
theorem min_max_value_witness :
    (1 ≤ 5 ∧ 5 ≤ INT_MAX ∧ policyOf (extract ['3'] 'x') = some Policy.par_unseq) ∧
    lam_min_element Policy.par_unseq (vecV1 5) = some (Val.f64 1.0) ∧
    lam_max_element Policy.par_unseq (vecV1 5) = some (Val.f64 ((5 : ℕ) : ℚ)) ∧
    lam_minmax_element Policy.par_unseq (vecV1 5) = some (Val.f64 (1.0 + ((5 : ℕ) : ℚ))) ∧
    ∃ w, main demoImpl (fun n => (n : ℤ)) ['3'] 'x' = some (w, 0) ∧
      reported w.out "std::min_element" = some (Val.f64 1.0) ∧
      reported w.out "std::max_element" = some (Val.f64 1024000000) ∧
      reported w.out "std::minmax_element" = some (Val.f64 (1.0 + 1024000000)) :=
  ⟨⟨by decide, by decide, by decide⟩,
   min_max_value 5 (by decide) (by decide) demoImpl Policy.par_unseq (fun n => (n : ℤ))
     ['3'] 'x' (by decide)⟩

theorem natsFrom_succ (a n : ℕ) : natsFrom a (n + 1) = (a : ℚ) :: natsFrom (a + 1) n := by
  rw [natsFrom, List.range'_succ, List.map_cons, ← natsFrom]

/-- C6: for every length `1 ≤ size ≤ INT_MAX`, on the sorted `v1 = 1.0, ..., size` and the
target `0.5`, `std::lower_bound` and `std::upper_bound` return positions before `end()`,
the dereferenced values are the first element `≥ 0.5` and the first element `> 0.5`, and both
are `1.0`; in the program both result lines report `1`. -/
theorem bounds_value (size : ℕ) (h1 : 1 ≤ size) (h : size ≤ INT_MAX) (impl : ParImpl)
    (p : Policy) (clock : ℕ → ℤ) (stdin : List Char) (indet : Char)
    (hc : policyOf (extract stdin indet) = some p) :
    (lower_bound (vecV1 size) (lit 0.5) < (vecV1 size).length ∧
      upper_bound (vecV1 size) (lit 0.5) < (vecV1 size).length) ∧
    (lam_lower_bound (vecV1 size)
        = ((vecV1 size).find? (fun x => decide (lit 0.5 ≤ x))).map Val.f64 ∧
      lam_upper_bound (vecV1 size)
        = ((vecV1 size).find? (fun x => decide (lit 0.5 < x))).map Val.f64) ∧
    (lam_lower_bound (vecV1 size) = some (Val.f64 1.0) ∧
      lam_upper_bound (vecV1 size) = some (Val.f64 1.0)) ∧
    ∃ w, main impl clock stdin indet = some (w, 0) ∧
      reported w.out "std::lower_bound" = some (Val.f64 1.0) ∧
      reported w.out "std::upper_bound" = some (Val.f64 1.0) := by
  have hb := lt_of_le_INT_MAX size h
  have e1 : (1.0 : ℚ) = 1 := by norm_num
  have hlo := lam_lower_bound_vecV1 size h1 hb
  have hup := lam_upper_bound_vecV1 size h1 hb
  have hlen : (vecV1 size).length = size := by rw [vecV1_eq size hb, length_natsFrom]
  obtain ⟨m, rfl⟩ : ∃ m, size = m + 1 := ⟨size - 1, by omega⟩
  have hf1 : (vecV1 (m + 1)).find? (fun x => decide (lit 0.5 ≤ x)) = some 1 := by
    rw [vecV1_eq _ hb, natsFrom_succ, lit_0_5]
    simp
    norm_num
  have hf2 : (vecV1 (m + 1)).find? (fun x => decide (lit 0.5 < x)) = some 1 := by
    rw [vecV1_eq _ hb, natsFrom_succ, lit_0_5]
    simp
    norm_num
  refine ⟨⟨?_, ?_⟩, ⟨?_, ?_⟩, ⟨?_, ?_⟩, ?_⟩
  · rw [lower_bound_vecV1 _ hb, hlen]; omega
  · rw [upper_bound_vecV1 _ hb, hlen]; omega
  · rw [hlo, hf1]; rfl
  · rw [hup, hf2]; rfl
  · rw [hlo, e1]
  · rw [hup, e1]
  · obtain ⟨w, r, s, hm, -, -, -, -, -, hlines⟩ := main_lines impl clock stdin indet p hc
    refine ⟨w, hm, ?_, ?_⟩
    · rw [reported_of_lines _ _ _ hlines, e1]; simp
    · rw [reported_of_lines _ _ _ hlines, e1]; simp

/-- Instance of C6 at `size = 4` under `seq`. -/
theorem bounds_value_witness :
    (1 ≤ 4 ∧ 4 ≤ INT_MAX ∧ policyOf (extract ['1'] 'x') = some Policy.seq) ∧
    (lower_bound (vecV1 4) (lit 0.5) < (vecV1 4).length ∧
      upper_bound (vecV1 4) (lit 0.5) < (vecV1 4).length) ∧
    (lam_lower_bound (vecV1 4)
        = ((vecV1 4).find? (fun x => decide (lit 0.5 ≤ x))).map Val.f64 ∧
      lam_upper_bound (vecV1 4)
        = ((vecV1 4).find? (fun x => decide (lit 0.5 < x))).map Val.f64) ∧
    (lam_lower_bound (vecV1 4) = some (Val.f64 1.0) ∧
      lam_upper_bound (vecV1 4) = some (Val.f64 1.0)) ∧
    ∃ w, main demoImpl (fun n => (n : ℤ)) ['1'] 'x' = some (w, 0) ∧
      reported w.out "std::lower_bound" = some (Val.f64 1.0) ∧
      reported w.out "std::upper_bound" = some (Val.f64 1.0) :=
  ⟨⟨by decide, by decide, by decide⟩,
   bounds_value 4 (by decide) (by decide) demoImpl Policy.seq (fun n => (n : ℤ)) ['1'] 'x'
     (by decide)⟩

/-- C7: for every length `size ≥ 0` and every policy, `std::copy_if` over `v` with the
predicate `value > 0.4` stays inside the output buffer of length `size`, copies every element
(the buffer ends up equal to `v`) and returns the position `size`, so the measured lambda
returns the count `size`; in the program the result line reports `1024000000`. -/
theorem copy_if_value (size : ℕ) (impl : ParImpl) (p : Policy) (clock : ℕ → ℤ)
    (stdin : List Char) (indet : Char) (hc : policyOf (extract stdin indet) = some p) :
    (∀ x ∈ vecV size, lit 0.4 < x) ∧
    copy_if p (vecV size) (List.replicate (vecV size).length 0)
      (fun value => decide (lit 0.4 < value)) = some (vecV size, size) ∧
    lam_copy_if p (vecV size) (List.replicate (vecV size).length 0) = some (Val.diff size) ∧
    ∃ w, main impl clock stdin indet = some (w, 0) ∧
      reported w.out "std::copy_if" = some (Val.diff 1024000000) := by
  have hc4 : lit 0.4 < 1 / 2 := by rw [lit_0_4]; norm_num
  refine ⟨?_, ?_, lam_copy_if_vecV p size, ?_⟩
  · intro x hx
    rw [vecV_eq] at hx
    rw [List.eq_of_mem_replicate hx]
    exact hc4
  · rw [vecV_eq, List.length_replicate]
    exact copy_if_replicate p _ _ (by simpa using hc4) size
  · obtain ⟨w, r, s, hm, -, -, -, -, -, hlines⟩ := main_lines impl clock stdin indet p hc
    refine ⟨w, hm, ?_⟩
    rw [reported_of_lines _ _ _ hlines]; simp

/-- Instance of C7 at `size = 3` under `par`. -/
theorem copy_if_value_witness :
    policyOf (extract ['2'] 'x') = some Policy.par ∧
    (∀ x ∈ vecV 3, lit 0.4 < x) ∧
    copy_if Policy.par (vecV 3) (List.replicate (vecV 3).length 0)
      (fun value => decide (lit 0.4 < value)) = some (vecV 3, 3) ∧
    lam_copy_if Policy.par (vecV 3) (List.replicate (vecV 3).length 0)
      = some (Val.diff ((3 : ℕ) : ℤ)) ∧
    ∃ w, main demoImpl (fun n => (n : ℤ)) ['2'] 'x' = some (w, 0) ∧
      reported w.out "std::copy_if" = some (Val.diff 1024000000) :=
  ⟨by decide,
   copy_if_value 3 demoImpl Policy.par (fun n => (n : ℤ)) ['2'] 'x' (by decide)⟩

theorem find_le_length (p : Policy) (xs : List ℚ) (value : ℚ) :
    find p xs value ≤ xs.length := by
  induction xs with
  | nil => simp [find]
  | cons x xs ih =>
    rw [find]
    split
    · simp
    · simpa using ih

/-- The call `std::find` returns `end()` exactly when no element equals the value. -/
theorem find_eq_length_iff (p : Policy) (xs : List ℚ) (value : ℚ) :
    find p xs value = xs.length ↔ value ∉ xs := by
  induction xs with
  | nil => simp [find]
  | cons x xs ih =>
    rw [find]
    split
    · rename_i hx
      simp [hx]
    · rename_i hx
      have hne : ¬ value = x := fun e => hx e.symm
      simp [hne, ih]

/-- C8: for every length `size ≥ 0` and every policy, no element of `v` equals `0.6`,
`std::find` returns `end()`, and the measured lambda returns `0.0`; in the program the result
line reports `0`.  The lambda maps the end position to `0.0` and any other position to `1.0`:
on every vector it returns `0.0` when `std::find` returns `end()`, which happens exactly when
no element equals `0.6`, and `1.0` otherwise. -/
theorem find_value (size : ℕ) (impl : ParImpl) (p : Policy) (clock : ℕ → ℤ)
    (stdin : List Char) (indet : Char) (hc : policyOf (extract stdin indet) = some p) :
    (∀ x ∈ vecV size, x ≠ lit 0.6) ∧
    find p (vecV size) (lit 0.6) = (vecV size).length ∧
    lam_find p (vecV size) = some (Val.f64 0.0) ∧
    (∃ w, main impl clock stdin indet = some (w, 0) ∧
      reported w.out "std::find" = some (Val.f64 0.0)) ∧
    (∀ xs : List ℚ, find p xs (lit 0.6) = xs.length → lam_find p xs = some (Val.f64 0.0)) ∧
    (∀ xs : List ℚ, find p xs (lit 0.6) ≠ xs.length → lam_find p xs = some (Val.f64 1.0)) ∧
    (∀ xs : List ℚ, lit 0.6 ∉ xs → lam_find p xs = some (Val.f64 0.0)) ∧
    (∀ xs : List ℚ, lit 0.6 ∈ xs →
      find p xs (lit 0.6) < xs.length ∧ lam_find p xs = some (Val.f64 1.0)) := by
  have hne : (1 / 2 : ℚ) ≠ lit 0.6 := by rw [lit_0_6]; norm_num
  have e0 : (0.0 : ℚ) = 0 := by norm_num
  have e1 : (1.0 : ℚ) = 1 := by norm_num
  have hend : ∀ xs : List ℚ, find p xs (lit 0.6) = xs.length →
      lam_find p xs = some (Val.f64 0.0) := by
    intro xs hx
    simp only [lam_find, hx, if_true, lit_0_0]
    rw [e0]
  have hother : ∀ xs : List ℚ, find p xs (lit 0.6) ≠ xs.length →
      lam_find p xs = some (Val.f64 1.0) := by
    intro xs hx
    simp only [lam_find, if_neg hx, lit_1_0]
    rw [e1]
  refine ⟨?_, ?_, ?_, ?_, hend, hother, ?_, ?_⟩
  · intro x hx
    rw [vecV_eq] at hx
    rw [List.eq_of_mem_replicate hx]
    exact hne
  · rw [vecV_eq, find_replicate_ne p size _ _ hne, List.length_replicate]
  · rw [e0, lam_find_vecV]
  · obtain ⟨w, r, s, hm, -, -, -, -, -, hlines⟩ := main_lines impl clock stdin indet p hc
    refine ⟨w, hm, ?_⟩
    rw [reported_of_lines _ _ _ hlines, e0]; simp
  · intro xs hx
    exact hend xs ((find_eq_length_iff p xs _).2 hx)
  · intro xs hx
    have hneq : find p xs (lit 0.6) ≠ xs.length := fun e =>
      (find_eq_length_iff p xs _).1 e hx
    exact ⟨lt_of_le_of_ne (find_le_length p xs _) hneq, hother xs hneq⟩

/-- Instance of C8 at `size = 3` under `par_unseq`. -/
theorem find_value_witness :
    policyOf (extract ['3'] 'x') = some Policy.par_unseq ∧
    (∀ x ∈ vecV 3, x ≠ lit 0.6) ∧
    find Policy.par_unseq (vecV 3) (lit 0.6) = (vecV 3).length ∧
    lam_find Policy.par_unseq (vecV 3) = some (Val.f64 0.0) ∧
    (∃ w, main demoImpl (fun n => (n : ℤ)) ['3'] 'x' = some (w, 0) ∧
      reported w.out "std::find" = some (Val.f64 0.0)) ∧
    (∀ xs : List ℚ, find Policy.par_unseq xs (lit 0.6) = xs.length →
      lam_find Policy.par_unseq xs = some (Val.f64 0.0)) ∧
    (∀ xs : List ℚ, find Policy.par_unseq xs (lit 0.6) ≠ xs.length →
      lam_find Policy.par_unseq xs = some (Val.f64 1.0)) ∧
    (∀ xs : List ℚ, lit 0.6 ∉ xs → lam_find Policy.par_unseq xs = some (Val.f64 0.0)) ∧
    (∀ xs : List ℚ, lit 0.6 ∈ xs →
      find Policy.par_unseq xs (lit 0.6) < xs.length ∧
      lam_find Policy.par_unseq xs = some (Val.f64 1.0)) :=
  ⟨by decide,
   find_value 3 demoImpl Policy.par_unseq (fun n => (n : ℤ)) ['3'] 'x' (by decide)⟩

/-- C9: for every length `size ≥ 1`, the lambda measured as `std::binary_search` over `v`
with target `0.5` returns `true`; it takes no policy, and in the program the result line
reports `true` whichever policy the console input selects. -/
theorem binary_search_value (size : ℕ) (h1 : 1 ≤ size) (impl : ParImpl) (p : Policy)
    (clock : ℕ → ℤ) (stdin : List Char) (indet : Char)
    (hc : policyOf (extract stdin indet) = some p) :
    lam_binary_search (vecV size) = some (Val.bool true) ∧
    ∃ w, main impl clock stdin indet = some (w, 0) ∧ w.calls = [p] ∧
      reported w.out "std::binary_search" = some (Val.bool true) := by
  refine ⟨lam_binary_search_vecV size h1, ?_⟩
  obtain ⟨w, r, s, hm, -, -, -, -, hcalls, hlines⟩ := main_lines impl clock stdin indet p hc
  refine ⟨w, hm, hcalls, ?_⟩
  rw [reported_of_lines _ _ _ hlines]; simp

/-- Instance of C9 at `size = 1` under `par`. -/
theorem binary_search_value_witness :
    (1 ≤ 1 ∧ policyOf (extract ['2'] 'x') = some Policy.par) ∧
    lam_binary_search (vecV 1) = some (Val.bool true) ∧
    ∃ w, main demoImpl (fun n => (n : ℤ)) ['2'] 'x' = some (w, 0) ∧ w.calls = [Policy.par] ∧
      reported w.out "std::binary_search" = some (Val.bool true) :=
  ⟨⟨by decide, by decide⟩,
   binary_search_value 1 (by decide) demoImpl Policy.par (fun n => (n : ℤ)) ['2'] 'x'
     (by decide)⟩

/-- C10: for every length `1 ≤ size ≤ INT_MAX`, every conforming library and every policy,
`std::inclusive_scan` over `v` fills the buffer `scan_result` of length `size` with
`0.5 * (k + 1)` at every position `k`, and the measured lambda returns its last element, which
equals the value returned by the lambda measured as `std::accumulate`, namely `0.5 * size`;
in the program both result lines report the same value. -/
theorem inclusive_scan_value (size : ℕ) (h1 : 1 ≤ size) (h : size ≤ INT_MAX) (impl : ParImpl)
    (hv : impl.Valid) (p : Policy) (clock : ℕ → ℤ) (stdin : List Char) (indet : Char)
    (hc : policyOf (extract stdin indet) = some p) :
    (∃ scan_result, inclusive_scan impl p (vecV size) (List.replicate (vecV size).length 0)
        = some scan_result ∧ scan_result.length = size ∧
        ∀ k : ℕ, k < size → scan_result[k]? = some (0.5 * ((k : ℚ) + 1))) ∧
    lam_inclusive_scan impl p (vecV size) = lam_accumulate (vecV size) ∧
    lam_inclusive_scan impl p (vecV size) = some (Val.f64 (0.5 * (size : ℚ))) ∧
    ∃ w, main impl clock stdin indet = some (w, 0) ∧
      reported w.out "std::inclusive_scan" = reported w.out "std::accumulate" ∧
      reported w.out "std::inclusive_scan" = some (Val.f64 (0.5 * 1024000000)) := by
  have hb := lt_of_le_INT_MAX size h
  have hscan := lam_inclusive_scan_vecV impl hv p size h1 (by omega)
  refine ⟨⟨_, inclusive_scan_vecV impl hv p size (by omega), by simp, ?_⟩, ?_, ?_, ?_⟩
  · intro k hk
    simp only [List.getElem?_map, List.getElem?_range hk, Option.map_some']
    congr 1
    push_cast
    norm_num
    ring
  · rw [hscan, lam_accumulate_vecV size (by omega)]
  · rw [hscan, half_mul]
  · obtain ⟨w, r, s, hm, -, hs, -, -, -, hlines⟩ := main_lines impl clock stdin indet p hc
    rw [lam_inclusive_scan_vecV impl hv p _ (by norm_num) (by norm_num)] at hs
    cases hs
    refine ⟨w, hm, ?_, ?_⟩
    · rw [reported_of_lines _ _ _ hlines, reported_of_lines _ _ _ hlines]
      simp
      norm_num
    · rw [reported_of_lines _ _ _ hlines]
      simp
      norm_num

/-- Instance of C10 at `size = 4` under `par`. -/
theorem inclusive_scan_value_witness :
    (1 ≤ 4 ∧ 4 ≤ INT_MAX ∧ demoImpl.Valid ∧ policyOf (extract ['2'] 'x') = some Policy.par) ∧
    (∃ scan_result, inclusive_scan demoImpl Policy.par (vecV 4) (List.replicate (vecV 4).length 0)
        = some scan_result ∧ scan_result.length = 4 ∧
        ∀ k : ℕ, k < 4 → scan_result[k]? = some (0.5 * ((k : ℚ) + 1))) ∧
    lam_inclusive_scan demoImpl Policy.par (vecV 4) = lam_accumulate (vecV 4) ∧
    lam_inclusive_scan demoImpl Policy.par (vecV 4) = some (Val.f64 (0.5 * ((4 : ℕ) : ℚ))) ∧
    ∃ w, main demoImpl (fun n => (n : ℤ)) ['2'] 'x' = some (w, 0) ∧
      reported w.out "std::inclusive_scan" = reported w.out "std::accumulate" ∧
      reported w.out "std::inclusive_scan" = some (Val.f64 (0.5 * 1024000000)) :=
  ⟨⟨by decide, by decide, demoImpl_valid, by decide⟩,
   inclusive_scan_value 4 (by decide) (by decide) demoImpl demoImpl_valid Policy.par
     (fun n => (n : ℤ)) ['2'] 'x' (by decide)⟩

end PSTL
